import Mathlib

/-!
Verification development for the `streaming` repository.

Embedded code:
* `streaming/base/format/mds/writer.py` — the `MDSWriter` class: construction-time
  schema validation, `encode_sample`, and `encode_joint_shard`.
* `streaming/multimodal/webvid.py` — the WebVid dataset variants: `__getitem__`
  side-asset fetching and the `_download_thread` prefetch scheduler loop.

Byte strings are modelled as `List Nat` with entries below 256; machine `uint32`
serialization is explicit little-endian with `% 2 ^ 32` truncation.
-/

namespace Streaming

/-- Little-endian serialization of a natural number as 4 bytes, i.e. the bytes of
`np.uint32 n` (`n` taken modulo `2 ^ 32`). -/
def uint32le (n : Nat) : List Nat :=
  [n % 256, n / 256 % 256, n / 65536 % 256, n / 16777216 % 256]

/-- The Python values a column of the modelled registry can hold. -/
inductive Value where
  | int (n : Nat)
  | str (s : String)
deriving DecidableEq

/-- Outcome of encoding one value with a named encoding: the encoding may be
unregistered, the value may have the wrong type for it, or encoding succeeds. -/
inductive EncResult where
  | unsupported
  | badValue
  | ok (bytes : List Nat)
deriving DecidableEq

/-- UTF-8 encoding of one character (code point split into 1-4 bytes). -/
def utf8EncodeChar (c : Char) : List Nat :=
  let n := c.toNat
  if n < 128 then [n]
  else if n < 2048 then [192 + n / 64, 128 + n % 64]
  else if n < 65536 then [224 + n / 4096, 128 + n / 64 % 64, 128 + n % 64]
  else [240 + n / 262144, 128 + n / 4096 % 64, 128 + n / 64 % 64, 128 + n % 64]

/-- UTF-8 bytes of a string (the bytes `str.encode` would produce). -/
def utf8Bytes (s : String) : List Nat :=
  (s.data.map utf8EncodeChar).flatten

/-- Modelled from the spec: the column codec registry of
`streaming.base.format.mds.encodings` is not among the sources; per the spec's
Column Codec Registry, we model a registry holding a fixed 4-byte unsigned-int
encoding (`"uint32"`) and a variable-size UTF-8 string encoding (`"str"`).
`is_mds_encoding` tests registry membership. -/
def isMdsEncoding (encoding : String) : Bool :=
  encoding = "uint32" || encoding = "str"

/-- Modelled from the spec: `get_mds_encoded_size` returns the declared fixed
size of an encoding, or `none` for a variable-size encoding. -/
def getMdsEncodedSize (encoding : String) : Option Nat :=
  if encoding = "uint32" then some 4 else none

/-- Modelled from the spec: `mds_encode` encodes one value with the named
encoding — little-endian 4 bytes for `"uint32"`, UTF-8 bytes for `"str"`,
`unsupported` for unregistered names, `badValue` on a type mismatch. -/
def mdsEncode (encoding : String) (value : Value) : EncResult :=
  if encoding = "uint32" then
    match value with
    | .int n => .ok (uint32le n)
    | _ => .badValue
  else if encoding = "str" then
    match value with
    | .str s => .ok (utf8Bytes s)
    | _ => .badValue
  else .unsupported

/-- One validated column of an `MDSWriter`: its name, encoding identifier, and
declared size (`none` for variable-size). -/
structure ColumnSpec where
  name : String
  encoding : String
  size : Option Nat
deriving DecidableEq

/-- Lexicographic order on code-point sequences (Python's string order). -/
def charListLe : List Char → List Char → Bool
  | [], _ => true
  | _ :: _, [] => false
  | a :: as, b :: bs =>
    if a.toNat < b.toNat then true
    else if b.toNat < a.toNat then false
    else charListLe as bs

/-- `a <= b` on strings, by code points. -/
def strLe (a b : String) : Bool :=
  charListLe a.data b.data

/-- Insert one `(name, encoding)` pair into a name-sorted list. -/
def insertByName (c : String × String) : List (String × String) → List (String × String)
  | [] => [c]
  | d :: ds => if strLe c.1 d.1 then c :: d :: ds else d :: insertByName c ds

/-- `sorted(columns)`: the columns dict's pairs in ascending name order. -/
def sortByName (columns : List (String × String)) : List (String × String) :=
  columns.foldr insertByName []

/-- The per-column validation loop of `MDSWriter.__init__` (writer.py lines
62-70): each column's encoding is checked against the registry; an unregistered
encoding raises `TypeError`, modelled as an error carrying the offending
`(name, encoding)` pair; otherwise the column's declared size is recorded. -/
def initColumns : List (String × String) → Except (String × String) (List ColumnSpec)
  | [] => .ok []
  | (name, encoding) :: rest =>
    if isMdsEncoding encoding then
      match initColumns rest with
      | .ok cols => .ok ({ name := name, encoding := encoding,
                           size := getMdsEncodedSize encoding } :: cols)
      | .error e => .error e
    else .error (name, encoding)

/-- `MDSWriter.__init__` column handling: iterate over `sorted(columns)`
validating and recording each column. -/
def mdsWriterInit (columns : List (String × String)) :
    Except (String × String) (List ColumnSpec) :=
  initColumns (sortByName columns)

/-- The errors `MDSWriter.encode_sample` can raise: `sample[key]` missing
(`KeyError`), an encoding problem inside `mds_encode`, or the fixed-size check
failing (the `KeyError` of writer.py lines 97-99). -/
inductive EncodeError where
  | missingKey (key : String)
  | unsupportedEncoding (encoding : String)
  | badValue (encoding : String)
  | sizeMismatch (encoding : String)
deriving DecidableEq

/-- The column loop of `MDSWriter.encode_sample` (writer.py lines 87-100):
walks the validated columns in order, encoding each field; a variable-size
column contributes its encoded length to the size table `sizes`, a fixed-size
column must match its declared size exactly. Returns `(sizes, data)`. -/
def encodeColumns (sample : String → Option Value) :
    List ColumnSpec → Except EncodeError (List Nat × List (List Nat))
  | [] => .ok ([], [])
  | c :: cs =>
    match sample c.name with
    | none => .error (.missingKey c.name)
    | some value =>
      match mdsEncode c.encoding value with
      | .unsupported => .error (.unsupportedEncoding c.encoding)
      | .badValue => .error (.badValue c.encoding)
      | .ok datum =>
        match c.size with
        | none =>
          match encodeColumns sample cs with
          | .ok (sizes, data) => .ok (datum.length :: sizes, datum :: data)
          | .error e => .error e
        | some size =>
          if size ≠ datum.length then .error (.sizeMismatch c.encoding)
          else
            match encodeColumns sample cs with
            | .ok (sizes, data) => .ok (sizes, datum :: data)
            | .error e => .error e

/-- `MDSWriter.encode_sample` (writer.py lines 78-103): the uint32 size-table
`head` for the variable-size columns followed by the concatenated column
bytes `body`. -/
def encodeSample (cols : List ColumnSpec) (sample : String → Option Value) :
    Except EncodeError (List Nat) :=
  match encodeColumns sample cols with
  | .ok (sizes, data) => .ok ((sizes.map uint32le).flatten ++ data.flatten)
  | .error e => .error e

/-- Running cumulative sums starting from `acc`, modelling `np.cumsum`. -/
def cumsumFrom (acc : Nat) : List Nat → List Nat
  | [] => []
  | x :: xs => (acc + x) :: cumsumFrom (acc + x) xs

/-- The absolute offsets array built by `MDSWriter.encode_joint_shard`
(writer.py lines 126-128): cumulative sums of `0 :: sizes`, truncated to
uint32 by `.astype(np.uint32)` (the first `% 2 ^ 32`), then shifted by the
header size 4 (sample count) + 4·(n+1) (offsets) + metadata length with
wrapping uint32 addition (the second `% 2 ^ 32`). -/
def shardOffsets (samples : List (List Nat)) (configData : List Nat) : List Nat :=
  ((cumsumFrom 0 (0 :: samples.map List.length)).map (· % 2 ^ 32)).map
    (fun x => (x + (4 + 4 * (samples.length + 1) + configData.length)) % 2 ^ 32)

/-- `MDSWriter.encode_joint_shard` (writer.py lines 119-130): uint32 sample
count, uint32 absolute offsets, frozen metadata bytes, concatenated samples. -/
def encodeJointShard (samples : List (List Nat)) (configData : List Nat) : List Nat :=
  uint32le samples.length ++ ((shardOffsets samples configData).map uint32le).flatten
    ++ configData ++ samples.flatten

/-! ## WebVid dataset variants (`streaming/multimodal/webvid.py`) -/

/-- Observable actions of the retrieval path and the scheduler loop: sleeping a
tick, acquiring a shard, a network transfer of a side asset, a local read. -/
inductive Event where
  | sleep
  | ensureShard (shardId : Nat) (blocking : Bool)
  | downloadFile (remotePath : String) (localPath : String)
  | readFile (path : String)
deriving DecidableEq

/-- Local machine state: which file paths exist and which shards are cached. -/
structure World where
  files : List String
  shards : List Nat
deriving DecidableEq

/-- `_PartitionState` (declared in `streaming.base.dataset`, outside the
sources); the fields are exactly the ones `_download_thread` uses: the
per-worker sample id sequence (with sentinel `-1` padding slots), the total
slot count, the download and yield cursors, and the cooperative stop flag. -/
structure PState where
  sampleIds : List Int
  total : Nat
  downloadIndex : Nat
  yieldIndex : Nat
  stopped : Bool
deriving DecidableEq

/-- A decoded sample as the WebVid code sees it: the `content_path` field the
side-asset logic reads, an opaque stand-in for the remaining fields, and the
optional `content` field the side-asset logic attaches. -/
structure Sample where
  contentPath : String
  payload : String
  content : Option (List Nat)
deriving DecidableEq

/-- Static configuration of a WebVid dataset object: the predownload window,
the side-asset roots (`extra_local` / `extra_remote`), and the external
collaborators — `self.index.find_sample` (sample id to owning shard),
the base `StreamingDataset.__getitem__` (shard decode), and the bytes a
local read of a path yields. -/
structure Config where
  predownload : Option Nat
  extraLocal : Option String
  extraRemote : Option String
  findSample : Int → Nat
  baseSample : Int → Sample
  fileBytes : String → List Nat

/-- Python truthiness of an optional string field
(`if self.extra_local and self.extra_remote:`). -/
def truthyStr : Option String → Bool
  | none => false
  | some s => s ≠ ""

/-- `os.path.join(base, rel)` for a relative second component. -/
def pathJoin (a b : String) : String :=
  a ++ "/" ++ b

/-- Modelled from the spec: the transfer primitive
`download(remote, local, timeout)` of `streaming.base.storage` (outside the
sources) places the fetched object at the local path. -/
def downloadTo (w : World) (localPath : String) : World :=
  { w with files := localPath :: w.files }

/-- Modelled from the spec: `_download_or_skip_shard` (declared in
`streaming.base.dataset`, outside the sources) is the Shard Cache's blocking
`ensure_local` — it returns once the shard is locally present, downloading it
if absent. -/
def ensureShardLocal (w : World) (shardId : Nat) : World :=
  if shardId ∈ w.shards then w else { w with shards := shardId :: w.shards }

/-- The side-asset block of `_download_thread` (webvid.py lines 270-275): when
both side-asset roots are truthy, derive local and remote paths from the
sample's `content_path` and transfer the asset only if the local path does not
exist. Returns the new world and the network transfers performed. -/
def prefetchSideAsset (cfg : Config) (obj : Sample) (w : World) :
    World × List Event :=
  if truthyStr cfg.extraLocal && truthyStr cfg.extraRemote then
    let localPath := pathJoin (cfg.extraLocal.getD "") obj.contentPath
    let remotePath := pathJoin (cfg.extraRemote.getD "") obj.contentPath
    if localPath ∈ w.files then (w, [])
    else (downloadTo w localPath, [Event.downloadFile remotePath localPath])
  else (w, [])

/-- `__getitem__` of `StreamingOutsideGIWebVid` (webvid.py lines 117-140) and
of `StreamingOutsideDTWebVid` (lines 200-223), whose bodies are identical:
base retrieval, then — when both side-asset roots are truthy — derive the
paths, download if the local path is missing, read the local file and attach
its bytes as the `content` field. -/
def getitem (cfg : Config) (idx : Int) (w : World) :
    Sample × World × List Event :=
  let obj := cfg.baseSample idx
  if truthyStr cfg.extraLocal && truthyStr cfg.extraRemote then
    let localPath := pathJoin (cfg.extraLocal.getD "") obj.contentPath
    let remotePath := pathJoin (cfg.extraRemote.getD "") obj.contentPath
    let step1 :=
      if localPath ∈ w.files then (w, ([] : List Event))
      else (downloadTo w localPath, [Event.downloadFile remotePath localPath])
    ({ obj with content := some (cfg.fileBytes localPath) }, step1.1,
      step1.2 ++ [Event.readFile localPath])
  else (obj, w, [])

/-- Result of one iteration of the scheduler loop: either the loop breaks, or
it continues with updated partition state, world, and the actions performed. -/
inductive StepResult where
  | done
  | next (s : PState) (w : World) (evs : List Event)
deriving DecidableEq

/-- The non-sentinel / sentinel tail of one `_download_thread` iteration
(webvid.py lines 258-277): read the sample id at the download cursor; a
sentinel `-1` just advances the cursor; otherwise resolve the owning shard,
acquire it, evaluate the base sample and prefetch its side asset, then
advance the cursor. -/
def downloadThreadBody (cfg : Config) (s : PState) (w : World) : StepResult :=
  let sampleId := s.sampleIds.getD s.downloadIndex 0
  if sampleId = -1 then
    .next { s with downloadIndex := s.downloadIndex + 1 } w []
  else
    let shardId := cfg.findSample sampleId
    let w1 := ensureShardLocal w shardId
    let obj := cfg.baseSample sampleId
    let pw := prefetchSideAsset cfg obj w1
    .next { s with downloadIndex := s.downloadIndex + 1 } pw.1
      (Event.ensureShard shardId true :: pw.2)

/-- One full iteration of the `while True` loop of `_download_thread`
(webvid.py lines 240-277): exit if stopped; exit if the download cursor
reached the total; sleep a tick if the predownload window is full
(`self.predownload <= download_index - yield_index`); otherwise run the body. -/
def downloadThreadStep (cfg : Config) (s : PState) (w : World) : StepResult :=
  if s.stopped then .done
  else if s.downloadIndex = s.total then .done
  else
    match cfg.predownload with
    | some pd =>
      if (pd : Int) ≤ (s.downloadIndex : Int) - (s.yieldIndex : Int) then
        .next s w [Event.sleep]
      else downloadThreadBody cfg s w
    | none => downloadThreadBody cfg s w

/-- States reachable from an initial partition state and world by interleaving
scheduler iterations with the two other writers the spec allows: the consumer
advancing the yield cursor (it only ever increases) and the epoch owner
setting the stop flag. -/
inductive Reachable (cfg : Config) (s0 : PState) (w0 : World) : PState → World → Prop
  | refl : Reachable cfg s0 w0 s0 w0
  | sched {s w s' w' evs} : Reachable cfg s0 w0 s w →
      downloadThreadStep cfg s w = .next s' w' evs → Reachable cfg s0 w0 s' w'
  | consume {s w} (y : Nat) : Reachable cfg s0 w0 s w → s.yieldIndex ≤ y →
      Reachable cfg s0 w0 { s with yieldIndex := y } w
  | stop {s w} : Reachable cfg s0 w0 s w →
      Reachable cfg s0 w0 { s with stopped := true } w

/-- Network transfers among a list of performed actions. -/
def countDownloads (evs : List Event) : Nat :=
  evs.countP fun e =>
    match e with
    | .downloadFile _ _ => true
    | _ => false

/-! ## Restatements of the spec's layout and error conditions

These are written from the spec's words, to be compared with the embedded
code above. -/

/-- The bytes one column contributes to a successfully encoded sample. -/
def columnDatum (sample : String → Option Value) (c : ColumnSpec) : List Nat :=
  match sample c.name with
  | some value =>
    match mdsEncode c.encoding value with
    | .ok datum => datum
    | _ => []
  | none => []

/-- The spec's "encoded bytes of every column, in schema order". -/
def columnBytes (cols : List ColumnSpec) (sample : String → Option Value) :
    List (List Nat) :=
  cols.map (columnDatum sample)

/-- The spec's size table: encoded lengths of the variable-size columns, in
schema order. -/
def variableSizes (cols : List ColumnSpec) (sample : String → Option Value) :
    List Nat :=
  ((cols.filter fun c => c.size.isNone).map (columnDatum sample)).map List.length

/-- Some fixed-size column's encoder output length differs from its declared
size (the situation the spec's `SizeMismatchError` describes). -/
def hasSizeMismatch (cols : List ColumnSpec) (sample : String → Option Value) : Bool :=
  cols.any fun c =>
    match c.size, sample c.name with
    | some size, some value =>
      match mdsEncode c.encoding value with
      | .ok datum => decide (size ≠ datum.length)
      | _ => false
    | _, _ => false

/-- Every column's field is present in the sample and encodable: the sample is
well-typed for the schema, so the only error the size check itself can face is
a length mismatch. -/
def resolvable (cols : List ColumnSpec) (sample : String → Option Value) : Prop :=
  ∀ c ∈ cols, ∃ value datum,
    sample c.name = some value ∧ mdsEncode c.encoding value = .ok datum

/-! ## Concrete fixtures -/

/-- The validated columns of the spec's schema `{a: fixed-4-byte-uint, b: variable-utf8}`. -/
def demoColumns : List ColumnSpec :=
  [{ name := "a", encoding := "uint32", size := some 4 },
   { name := "b", encoding := "str", size := none }]

/-- The sample `{a: 7, b: "hi"}`. -/
def demoSample : String → Option Value := fun key =>
  if key = "a" then some (.int 7) else if key = "b" then some (.str "hi") else none

/-- A small concrete dataset configuration with a predownload window of 1 and
both side-asset roots set. -/
def demoConfig : Config :=
  { predownload := some 1
    extraLocal := some "/el"
    extraRemote := some "/er"
    findSample := fun _ => 0
    baseSample := fun _ => { contentPath := "v.mp4", payload := "", content := none }
    fileBytes := fun _ => [] }

/-- `demoConfig` with the side-asset local root unset. -/
def demoConfigNoExtra : Config :=
  { demoConfig with extraLocal := none }

/-- An empty local machine. -/
def demoWorld : World :=
  { files := [], shards := [] }

/-- A fresh partition state over three slots, the middle one a sentinel. -/
def demoState : PState :=
  { sampleIds := [0, -1, 1], total := 3, downloadIndex := 0, yieldIndex := 0,
    stopped := false }

/-- `demoState` with both cursors at the sentinel slot. -/
def demoStateAtSentinel : PState :=
  { sampleIds := [0, -1, 1], total := 3, downloadIndex := 1, yieldIndex := 1,
    stopped := false }

/-! ## Shard layout (claim C1) -/

theorem cumsumFrom_length (a : Nat) (xs : List Nat) :
    (cumsumFrom a xs).length = xs.length := by
  induction xs generalizing a with
  | nil => rfl
  | cons x xs ih => simp [cumsumFrom, ih]

theorem cumsumFrom_getD (xs : List Nat) (a k : Nat) (h : k < xs.length) :
    (cumsumFrom a xs).getD k 0 = a + (xs.take (k + 1)).sum := by
  induction xs generalizing a k with
  | nil => simp at h
  | cons x xs ih =>
    cases k with
    | zero => simp [cumsumFrom]
    | succ k =>
      have h' : k < xs.length := by simpa using h
      simp only [cumsumFrom, List.getD_cons_succ, List.take_succ_cons, List.sum_cons]
      rw [ih (a + x) k h']
      omega

theorem getD_map_of_lt (f : Nat → Nat) (l : List Nat) (k : Nat) (h : k < l.length) :
    (l.map f).getD k 0 = f (l.getD k 0) := by
  induction l generalizing k with
  | nil => simp at h
  | cons x xs ih =>
    cases k with
    | zero => simp
    | succ k =>
      simp only [List.map_cons, List.getD_cons_succ]
      exact ih k (by simpa using h)

theorem shardOffsets_getD (samples : List (List Nat)) (configData : List Nat)
    (k : Nat) (h : k ≤ samples.length) :
    (shardOffsets samples configData).getD k 0
      = (((samples.map List.length).take k).sum % 2 ^ 32
          + (4 + 4 * (samples.length + 1) + configData.length)) % 2 ^ 32 := by
  have hk : k < (0 :: samples.map List.length).length := by
    simp only [List.length_cons, List.length_map]
    omega
  unfold shardOffsets
  rw [getD_map_of_lt _ _ k
      (by rw [List.length_map, cumsumFrom_length]; exact hk),
    getD_map_of_lt _ _ k (by rw [cumsumFrom_length]; exact hk),
    cumsumFrom_getD _ 0 k hk]
  simp only [List.take_succ_cons, List.sum_cons, Nat.zero_add]

theorem sum_take_le_sum (l : List Nat) (k : Nat) : (l.take k).sum ≤ l.sum := by
  calc (l.take k).sum ≤ (l.take k).sum + (l.drop k).sum := Nat.le_add_right _ _
  _ = l.sum := by rw [← List.sum_append, List.take_append_drop]

/-- When the whole shard (header plus samples) fits below `2 ^ 32`, the uint32
truncation in the offset table is the identity. -/
theorem shardOffsets_getD_of_lt (samples : List (List Nat)) (configData : List Nat)
    (k : Nat) (h : k ≤ samples.length)
    (hlt : 4 + 4 * (samples.length + 1) + configData.length
        + (samples.map List.length).sum < 2 ^ 32) :
    (shardOffsets samples configData).getD k 0
      = 4 + 4 * (samples.length + 1) + configData.length
        + ((samples.map List.length).take k).sum := by
  have hle := sum_take_le_sum (samples.map List.length) k
  rw [shardOffsets_getD _ _ k h, Nat.mod_eq_of_lt (by omega),
    Nat.mod_eq_of_lt (by omega)]
  omega

theorem shardOffsets_length (samples : List (List Nat)) (configData : List Nat) :
    (shardOffsets samples configData).length = samples.length + 1 := by
  simp [shardOffsets, cumsumFrom_length]

theorem flatten_map_uint32le_length (l : List Nat) :
    ((l.map uint32le).flatten).length = 4 * l.length := by
  induction l with
  | nil => rfl
  | cons x xs ih =>
    simp only [List.map_cons, List.flatten_cons, List.length_append, ih,
      List.length_cons]
    simp [uint32le]
    omega

theorem encodeJointShard_length (samples : List (List Nat)) (configData : List Nat) :
    (encodeJointShard samples configData).length
      = 4 + 4 * (samples.length + 1) + configData.length
        + (samples.map List.length).sum := by
  unfold encodeJointShard
  rw [List.length_append, List.length_append, List.length_append,
    flatten_map_uint32le_length, shardOffsets_length, List.length_flatten]
  simp only [uint32le, List.length_cons, List.length_nil]

theorem sum_take_succ_getD (l : List Nat) (k : Nat) (h : k < l.length) :
    (l.take (k + 1)).sum = (l.take k).sum + l.getD k 0 := by
  rw [List.sum_take_succ _ k h]
  simp [List.getD_eq_getElem?_getD, List.getElem?_eq_getElem h]

theorem getD_map_length (samples : List (List Nat)) (k : Nat)
    (h : k < samples.length) :
    (samples.map List.length).getD k 0 = (samples.getD k []).length := by
  simp [List.getD_eq_getElem?_getD, List.getElem?_eq_getElem h,
    List.getElem?_eq_getElem (by simpa using h : k < (samples.map List.length).length)]

/-- Claim C1 (amended): for a shard file shorter than `2 ^ 32` bytes,
`encode_joint_shard` emits the uint32 sample count, then a uint32 offset
array of length `n + 1`, then the frozen metadata bytes, then the
concatenated samples; `offsets[0]` is the header size
`4 + 4·(n+1) + metadata length`, consecutive offsets differ by the
corresponding sample's length, and the last offset is the total file length.
(The offset table is stored in uint32 — `astype(np.uint32)` plus a wrapping
`+=` — so these identities wrap, and fail, once the file reaches `2 ^ 32`
bytes; see the counterexample.) In particular two samples of lengths 10 and 8
with 50 metadata bytes give offsets `[66, 76, 84]` and an 84-byte file. -/
theorem encode_joint_shard_offsets (samples : List (List Nat)) (configData : List Nat)
    (hlt : (encodeJointShard samples configData).length < 2 ^ 32) :
    (shardOffsets samples configData).length = samples.length + 1 ∧
    (shardOffsets samples configData).getD 0 0
      = 4 + 4 * (samples.length + 1) + configData.length ∧
    (∀ k, k < samples.length →
      (shardOffsets samples configData).getD (k + 1) 0
          - (shardOffsets samples configData).getD k 0
        = (samples.getD k []).length) ∧
    (shardOffsets samples configData).getD samples.length 0
      = (encodeJointShard samples configData).length ∧
    encodeJointShard samples configData
      = uint32le samples.length
        ++ ((shardOffsets samples configData).map uint32le).flatten
        ++ configData ++ samples.flatten ∧
    shardOffsets [List.replicate 10 0, List.replicate 8 0] (List.replicate 50 0)
      = [66, 76, 84] ∧
    (encodeJointShard [List.replicate 10 0, List.replicate 8 0]
        (List.replicate 50 0)).length = 84 := by
  have hbase : 4 + 4 * (samples.length + 1) + configData.length
      + (samples.map List.length).sum < 2 ^ 32 := by
    rw [← encodeJointShard_length]
    exact hlt
  refine ⟨shardOffsets_length _ _, ?_, ?_, ?_, rfl, by decide, by decide⟩
  · rw [shardOffsets_getD_of_lt _ _ 0 (Nat.zero_le _) hbase]
    simp
  · intro k hk
    rw [shardOffsets_getD_of_lt _ _ (k + 1) (by omega) hbase,
      shardOffsets_getD_of_lt _ _ k (by omega) hbase,
      sum_take_succ_getD _ k (by simpa using hk), getD_map_length _ k hk]
    omega
  · rw [shardOffsets_getD_of_lt _ _ samples.length le_rfl hbase,
      encodeJointShard_length]
    simp [List.take_of_length_le]

/-- Closed instance of `encode_joint_shard_offsets`: in the two-sample
scenario, the second offset minus the first is the first sample's length. -/
theorem encode_joint_shard_offsets_witness :
    (shardOffsets [List.replicate 10 0, List.replicate 8 0] (List.replicate 50 0)).getD 1 0
        - (shardOffsets [List.replicate 10 0, List.replicate 8 0]
            (List.replicate 50 0)).getD 0 0
      = (([List.replicate 10 (0 : Nat), List.replicate 8 0]).getD 0 []).length :=
  (encode_joint_shard_offsets [List.replicate 10 0, List.replicate 8 0]
    (List.replicate 50 0) (by decide)).2.2.1 0 (by decide)

/-- The original claim fails on the code for shards of `2 ^ 32` bytes or more:
for one buffered sample of length `2 ^ 32` with 50 metadata bytes, the stored
uint32 offset table is `[62, 62]`, so `offsets[1] - offsets[0]` is `0`, not
the sample's length, and `offsets[1]` is not the total file length. -/
theorem encode_joint_shard_offsets_counterexample :
    (shardOffsets [List.replicate (2 ^ 32) 0] (List.replicate 50 0)).getD 1 0
        - (shardOffsets [List.replicate (2 ^ 32) 0] (List.replicate 50 0)).getD 0 0
      ≠ (([List.replicate (2 ^ 32) (0 : Nat)]).getD 0 []).length ∧
    (shardOffsets [List.replicate (2 ^ 32) 0] (List.replicate 50 0)).getD 1 0
      ≠ (encodeJointShard [List.replicate (2 ^ 32) 0] (List.replicate 50 0)).length := by
  have h1 : ([List.replicate (2 ^ 32) (0 : Nat)]).map List.length = [2 ^ 32] := by
    rw [List.map_cons, List.map_nil, List.length_replicate]
  have h2 : (List.replicate 50 (0 : Nat)).length = 50 := List.length_replicate 50 0
  have h3 : ([List.replicate (2 ^ 32) (0 : Nat)]).length = 1 := rfl
  have hoff : shardOffsets [List.replicate (2 ^ 32) (0 : Nat)] (List.replicate 50 0)
      = [62, 62] := by
    rw [shardOffsets, h1, h2, h3]
    norm_num [cumsumFrom]
  constructor
  · rw [hoff,
      show (([List.replicate (2 ^ 32) (0 : Nat)]).getD 0 [])
          = List.replicate (2 ^ 32) 0 from rfl,
      List.length_replicate]
    norm_num
  · rw [hoff, encodeJointShard_length, h1, h2, h3]
    norm_num

/-! ## Per-sample layout (claim C2) -/

theorem encodeColumns_ok (sample : String → Option Value) (cols : List ColumnSpec)
    (sizes : List Nat) (data : List (List Nat))
    (h : encodeColumns sample cols = .ok (sizes, data)) :
    sizes = variableSizes cols sample ∧ data = columnBytes cols sample := by
  induction cols generalizing sizes data with
  | nil =>
    simp only [encodeColumns, Except.ok.injEq, Prod.mk.injEq] at h
    simp [← h.1, ← h.2, variableSizes, columnBytes]
  | cons c cs ih =>
    rw [encodeColumns] at h
    cases hs : sample c.name with
    | none => rw [hs] at h; exact absurd h (by simp)
    | some value =>
      rw [hs] at h
      simp only [] at h
      cases he : mdsEncode c.encoding value with
      | unsupported => rw [he] at h; exact absurd h (by simp)
      | badValue => rw [he] at h; exact absurd h (by simp)
      | ok datum =>
        rw [he] at h
        simp only [] at h
        cases hsz : c.size with
        | none =>
          rw [hsz] at h
          simp only [] at h
          cases hrec : encodeColumns sample cs with
          | error e => rw [hrec] at h; exact absurd h (by simp)
          | ok p =>
            obtain ⟨sizes', data'⟩ := p
            rw [hrec] at h
            simp only [Except.ok.injEq, Prod.mk.injEq] at h
            obtain ⟨hrec1, hrec2⟩ := ih sizes' data' hrec
            constructor
            · rw [← h.1, hrec1]
              simp [variableSizes, List.filter_cons, hsz, columnDatum, hs, he]
            · rw [← h.2, hrec2]
              simp [columnBytes, columnDatum, hs, he]
        | some size =>
          rw [hsz] at h
          simp only [] at h
          by_cases hms : size ≠ datum.length
          · rw [if_pos hms] at h; exact absurd h (by simp)
          · rw [if_neg hms] at h
            cases hrec : encodeColumns sample cs with
            | error e => rw [hrec] at h; exact absurd h (by simp)
            | ok p =>
              obtain ⟨sizes', data'⟩ := p
              rw [hrec] at h
              simp only [Except.ok.injEq, Prod.mk.injEq] at h
              obtain ⟨hrec1, hrec2⟩ := ih sizes' data' hrec
              constructor
              · rw [← h.1, hrec1]
                simp [variableSizes, List.filter_cons, hsz]
              · rw [← h.2, hrec2]
                simp [columnBytes, columnDatum, hs, he]

/-- Claim C2: a successfully encoded sample is the uint32 size-table of the
variable-size columns (schema order) followed by every column's encoded bytes
(schema order); for the schema `{a: fixed-4-byte-uint, b: variable-utf8}` and
sample `{a: 7, b: "hi"}`, the result is exactly the 10 bytes
`[2,0,0,0, 7,0,0,0, 0x68,0x69]`. -/
theorem encode_sample_layout :
    encodeSample demoColumns demoSample = .ok [2, 0, 0, 0, 7, 0, 0, 0, 104, 105] ∧
    mdsWriterInit [("a", "uint32"), ("b", "str")] = .ok demoColumns ∧
    ∀ cols sample bs, encodeSample cols sample = .ok bs →
      bs = ((variableSizes cols sample).map uint32le).flatten
        ++ (columnBytes cols sample).flatten := by
  refine ⟨rfl, rfl, ?_⟩
  intro cols sample bs h
  unfold encodeSample at h
  cases hrec : encodeColumns sample cols with
  | error e => rw [hrec] at h; exact absurd h (by simp)
  | ok p =>
    obtain ⟨sizes, data⟩ := p
    rw [hrec] at h
    simp only [Except.ok.injEq] at h
    obtain ⟨h1, h2⟩ := encodeColumns_ok sample cols sizes data hrec
    rw [← h, h1, h2]

/-- Closed instance of `encode_sample_layout`: the 10 concrete bytes decompose
as the size table `[2,0,0,0]` followed by the two columns' bytes. -/
theorem encode_sample_layout_witness :
    [2, 0, 0, 0, 7, 0, 0, 0, 104, 105]
      = ((variableSizes demoColumns demoSample).map uint32le).flatten
        ++ (columnBytes demoColumns demoSample).flatten :=
  encode_sample_layout.2.2 demoColumns demoSample _ encode_sample_layout.1

/-! ## Fixed-size check (claim C4) -/

theorem encodeColumns_mismatch (cols : List ColumnSpec) (sample : String → Option Value)
    (h : resolvable cols sample) :
    (hasSizeMismatch cols sample = true →
      ∃ e, encodeColumns sample cols = .error (.sizeMismatch e)) ∧
    (hasSizeMismatch cols sample = false →
      ∃ p, encodeColumns sample cols = .ok p) := by
  induction cols with
  | nil => exact ⟨by simp [hasSizeMismatch], fun _ => ⟨([], []), rfl⟩⟩
  | cons c cs ih =>
    obtain ⟨value, datum, hs, he⟩ := h c (List.mem_cons_self c cs)
    obtain ⟨ih1, ih2⟩ := ih (fun c' hc' => h c' (List.mem_cons_of_mem c hc'))
    cases hsz : c.size with
    | none =>
      have hft : hasSizeMismatch (c :: cs) sample = hasSizeMismatch cs sample := by
        simp [hasSizeMismatch, List.any_cons, hsz, hs, he]
      have hunfold : encodeColumns sample (c :: cs)
          = match encodeColumns sample cs with
            | .ok (sizes, data) => .ok (datum.length :: sizes, datum :: data)
            | .error e => .error e := by
        simp [encodeColumns, hs, he, hsz]
      constructor
      · intro hm
        rw [hft] at hm
        obtain ⟨e, herr⟩ := ih1 hm
        exact ⟨e, by rw [hunfold, herr]⟩
      · intro hm
        rw [hft] at hm
        obtain ⟨⟨sizes, data⟩, hok⟩ := ih2 hm
        exact ⟨(datum.length :: sizes, datum :: data), by rw [hunfold, hok]⟩
    | some size =>
      have hft : hasSizeMismatch (c :: cs) sample
          = (decide (size ≠ datum.length) || hasSizeMismatch cs sample) := by
        simp [hasSizeMismatch, List.any_cons, hsz, hs, he]
      by_cases hms : size = datum.length
      · have hft2 : hasSizeMismatch (c :: cs) sample = hasSizeMismatch cs sample := by
          rw [hft]; simp [hms]
        have hunfold : encodeColumns sample (c :: cs)
            = match encodeColumns sample cs with
              | .ok (sizes, data) => .ok (sizes, datum :: data)
              | .error e => .error e := by
          simp [encodeColumns, hs, he, hsz, hms]
        constructor
        · intro hm
          rw [hft2] at hm
          obtain ⟨e, herr⟩ := ih1 hm
          exact ⟨e, by rw [hunfold, herr]⟩
        · intro hm
          rw [hft2] at hm
          obtain ⟨⟨sizes, data⟩, hok⟩ := ih2 hm
          exact ⟨(sizes, datum :: data), by rw [hunfold, hok]⟩
      · have hunfold : encodeColumns sample (c :: cs)
            = .error (.sizeMismatch c.encoding) := by
          simp [encodeColumns, hs, he, hsz, hms]
        constructor
        · exact fun _ => ⟨c.encoding, hunfold⟩
        · intro hm
          rw [hft] at hm
          simp [hms] at hm

/-- Claim C4: assuming every column's field is present and encodable, a
`SizeMismatch` error is raised at encode time exactly when some fixed-size
column's encoded length differs from its declared size; when every fixed-size
column matches, `encode_sample` returns a byte string. -/
theorem encode_sample_size_mismatch (cols : List ColumnSpec)
    (sample : String → Option Value) (h : resolvable cols sample) :
    ((∃ e, encodeSample cols sample = .error (.sizeMismatch e)) ↔
      hasSizeMismatch cols sample = true) ∧
    (hasSizeMismatch cols sample = false →
      ∃ bs, encodeSample cols sample = .ok bs) := by
  obtain ⟨h1, h2⟩ := encodeColumns_mismatch cols sample h
  refine ⟨⟨?_, ?_⟩, ?_⟩
  · rintro ⟨e, he⟩
    cases hm : hasSizeMismatch cols sample with
    | true => rfl
    | false =>
      obtain ⟨⟨sizes, data⟩, hok⟩ := h2 hm
      rw [encodeSample, hok] at he
      exact absurd he (by simp)
  · intro hm
    obtain ⟨e, herr⟩ := h1 hm
    exact ⟨e, by rw [encodeSample, herr]⟩
  · intro hm
    obtain ⟨⟨sizes, data⟩, hok⟩ := h2 hm
    exact ⟨(sizes.map uint32le).flatten ++ data.flatten, by rw [encodeSample, hok]⟩

/-- Closed instance of `encode_sample_size_mismatch`: the demo schema and
sample have no fixed-size mismatch, so encoding succeeds. -/
theorem encode_sample_size_mismatch_witness :
    ∃ bs, encodeSample demoColumns demoSample = .ok bs :=
  (encode_sample_size_mismatch demoColumns demoSample
    (by
      intro c hc
      simp only [demoColumns, List.mem_cons, List.not_mem_nil, or_false] at hc
      rcases hc with rfl | rfl
      · exact ⟨.int 7, uint32le 7, rfl, rfl⟩
      · exact ⟨.str "hi", utf8Bytes "hi", rfl, rfl⟩)).2 (by decide)

/-! ## Construction-time encoding validation (claim C8) -/

theorem mem_insertByName {a c : String × String} {l : List (String × String)} :
    a ∈ insertByName c l ↔ a = c ∨ a ∈ l := by
  induction l with
  | nil => simp [insertByName]
  | cons d ds ih =>
    rw [insertByName]
    split
    · simp
    · simp only [List.mem_cons, ih]
      tauto

theorem mem_sortByName {a : String × String} {l : List (String × String)} :
    a ∈ sortByName l ↔ a ∈ l := by
  induction l with
  | nil => simp [sortByName]
  | cons c cs ih =>
    show a ∈ insertByName c (sortByName cs) ↔ _
    rw [mem_insertByName, ih, List.mem_cons]

theorem initColumns_error_iff (l : List (String × String)) :
    (∃ e, initColumns l = .error e) ↔ ∃ p ∈ l, isMdsEncoding p.2 = false := by
  induction l with
  | nil => simp [initColumns]
  | cons p ps ih =>
    obtain ⟨name, encoding⟩ := p
    cases henc : isMdsEncoding encoding with
    | false =>
      constructor
      · intro _
        exact ⟨(name, encoding), List.mem_cons_self _ _, henc⟩
      · intro _
        exact ⟨(name, encoding), by rw [initColumns, henc]; rfl⟩
    | true =>
      have hunfold : initColumns ((name, encoding) :: ps)
          = match initColumns ps with
            | .ok cols => .ok ({ name := name, encoding := encoding,
                                 size := getMdsEncodedSize encoding } :: cols)
            | .error e => .error e := by
        rw [initColumns, if_pos henc]
      constructor
      · rintro ⟨e, herr⟩
        rw [hunfold] at herr
        cases hrec : initColumns ps with
        | ok cols => rw [hrec] at herr; exact absurd herr (by simp)
        | error e' =>
          obtain ⟨q, hq, hbad⟩ := ih.mp ⟨e', hrec⟩
          exact ⟨q, List.mem_cons_of_mem _ hq, hbad⟩
      · rintro ⟨q, hq, hbad⟩
        rcases List.mem_cons.mp hq with rfl | hq'
        · exact absurd henc (by rw [hbad]; simp)
        · obtain ⟨e', herr⟩ := ih.mpr ⟨q, hq', hbad⟩
          exact ⟨e', by rw [hunfold, herr]⟩

theorem initColumns_ok_registered (l : List (String × String))
    (cols : List ColumnSpec) (h : initColumns l = .ok cols) :
    ∀ c ∈ cols, isMdsEncoding c.encoding = true := by
  induction l generalizing cols with
  | nil =>
    rw [initColumns] at h
    simp only [Except.ok.injEq] at h
    simp [← h]
  | cons p ps ih =>
    obtain ⟨name, encoding⟩ := p
    rw [initColumns] at h
    cases henc : isMdsEncoding encoding with
    | false => rw [if_neg (by simp [henc])] at h; exact absurd h (by simp)
    | true =>
      rw [if_pos henc] at h
      cases hrec : initColumns ps with
      | error e => rw [hrec] at h; exact absurd h (by simp)
      | ok cols' =>
        rw [hrec] at h
        simp only [Except.ok.injEq] at h
        intro c hc
        rw [← h] at hc
        rcases List.mem_cons.mp hc with rfl | hc'
        · exact henc
        · exact ih cols' hrec c hc'

theorem isMdsEncoding_not_unsupported (e : String) (he : isMdsEncoding e = true)
    (v : Value) : mdsEncode e v ≠ .unsupported := by
  rw [isMdsEncoding] at he
  simp only [Bool.or_eq_true, decide_eq_true_eq] at he
  rcases he with rfl | rfl <;> cases v <;> simp [mdsEncode]

theorem encodeColumns_no_unsupported (cols : List ColumnSpec)
    (sample : String → Option Value)
    (hreg : ∀ c ∈ cols, isMdsEncoding c.encoding = true) :
    ∀ e, encodeColumns sample cols ≠ .error (.unsupportedEncoding e) := by
  induction cols with
  | nil => intro e h; exact absurd h (by rw [encodeColumns]; simp)
  | cons c cs ih =>
    intro e h
    rw [encodeColumns] at h
    cases hs : sample c.name with
    | none => rw [hs] at h; simp at h
    | some value =>
      rw [hs] at h
      simp only [] at h
      cases he : mdsEncode c.encoding value with
      | unsupported =>
        exact isMdsEncoding_not_unsupported c.encoding
          (hreg c (List.mem_cons_self c cs)) value he
      | badValue => rw [he] at h; simp at h
      | ok datum =>
        rw [he] at h
        simp only [] at h
        have htail := ih (fun c' hc' => hreg c' (List.mem_cons_of_mem c hc'))
        cases hsz : c.size with
        | none =>
          rw [hsz] at h
          simp only [] at h
          cases hrec : encodeColumns sample cs with
          | error e' =>
            rw [hrec] at h
            simp only [Except.error.injEq] at h
            exact htail e (by rw [hrec, h])
          | ok p => rw [hrec] at h; simp at h
        | some size =>
          rw [hsz] at h
          simp only [] at h
          by_cases hms : size ≠ datum.length
          · rw [if_pos hms] at h; simp at h
          · rw [if_neg hms] at h
            cases hrec : encodeColumns sample cs with
            | error e' =>
              rw [hrec] at h
              simp only [Except.error.injEq] at h
              exact htail e (by rw [hrec, h])
            | ok p => rw [hrec] at h; simp at h

/-- Claim C8: constructing an `MDSWriter` fails exactly when some column's
encoding identifier is unregistered — validity is decided at construction —
and a successfully constructed writer's `encode_sample` can never fail with
an unsupported-encoding error. -/
theorem init_validates_encodings :
    (∀ columns : List (String × String),
      (∃ e, mdsWriterInit columns = .error e) ↔
        ∃ p ∈ columns, isMdsEncoding p.2 = false) ∧
    (∀ columns cols, mdsWriterInit columns = .ok cols →
      ∀ sample e, encodeSample cols sample ≠ .error (.unsupportedEncoding e)) := by
  constructor
  · intro columns
    rw [mdsWriterInit, initColumns_error_iff]
    constructor
    · rintro ⟨p, hp, hbad⟩; exact ⟨p, mem_sortByName.mp hp, hbad⟩
    · rintro ⟨p, hp, hbad⟩; exact ⟨p, mem_sortByName.mpr hp, hbad⟩
  · intro columns cols h sample e herr
    have hreg := initColumns_ok_registered _ cols h
    rw [encodeSample] at herr
    cases hrec : encodeColumns sample cols with
    | error e' =>
      rw [hrec] at herr
      simp only [Except.error.injEq] at herr
      exact encodeColumns_no_unsupported cols sample hreg e (by rw [hrec, herr])
    | ok p => obtain ⟨sizes, data⟩ := p; rw [hrec] at herr; simp at herr

/-- Closed instance of `init_validates_encodings`: a schema containing the
unregistered encoding `"png"` is rejected at construction. -/
theorem init_validates_encodings_witness :
    ∃ e, mdsWriterInit [("a", "uint32"), ("c", "png")] = .error e :=
  (init_validates_encodings.1 [("a", "uint32"), ("c", "png")]).mpr
    ⟨("c", "png"), by decide, by decide⟩

/-! ## Scheduler loop: cancellation (claim C7), sentinel skip (claim C6),
shard acquisition (claim C5) -/

/-- Claim C7: `is_stopped` is checked at the top of every loop iteration before
any other work, so once the stop flag is observed the scheduler loop exits
immediately, whatever the window or cursor state. (The remaining "within one
polling interval" part of the claim is real-time behavior of the polling
`sleep`, outside the step-level model.) -/
theorem stop_flag_exits (cfg : Config) (s : PState) (w : World)
    (h : s.stopped = true) : downloadThreadStep cfg s w = .done := by
  rw [downloadThreadStep, h]
  rfl

/-- Closed instance of `stop_flag_exits` on the demo state. -/
theorem stop_flag_exits_witness :
    downloadThreadStep demoConfig { demoState with stopped := true } demoWorld
      = .done :=
  stop_flag_exits demoConfig { demoState with stopped := true } demoWorld rfl

/-- When the stop, end-of-samples, and window checks all pass, one scheduler
iteration runs the loop body. -/
theorem downloadThreadStep_run (cfg : Config) (s : PState) (w : World)
    (hstop : s.stopped = false) (htot : s.downloadIndex ≠ s.total)
    (hwin : ∀ pd, cfg.predownload = some pd →
      (s.downloadIndex : Int) - (s.yieldIndex : Int) < (pd : Int)) :
    downloadThreadStep cfg s w = downloadThreadBody cfg s w := by
  rw [downloadThreadStep, if_neg (by simp [hstop]), if_neg htot]
  rcases hpd : cfg.predownload with _ | pd
  · rfl
  · have hw := hwin pd hpd
    show (if (pd : Int) ≤ (s.downloadIndex : Int) - (s.yieldIndex : Int)
        then StepResult.next s w [Event.sleep] else downloadThreadBody cfg s w)
      = downloadThreadBody cfg s w
    rw [if_neg (by omega)]

/-- Claim C6: when the slot at the download cursor holds the sentinel `-1`
(and the loop is past its stop, end-of-samples, and window checks), the
iteration advances the download cursor by exactly one and does nothing else:
no events are issued, the world is untouched, and every other partition-state
field is unchanged. -/
theorem sentinel_skip (cfg : Config) (s : PState) (w : World)
    (hstop : s.stopped = false) (htot : s.downloadIndex ≠ s.total)
    (hwin : ∀ pd, cfg.predownload = some pd →
      (s.downloadIndex : Int) - (s.yieldIndex : Int) < (pd : Int))
    (hsent : s.sampleIds.getD s.downloadIndex 0 = -1) :
    downloadThreadStep cfg s w
      = .next { s with downloadIndex := s.downloadIndex + 1 } w [] := by
  rw [downloadThreadStep_run cfg s w hstop htot hwin, downloadThreadBody]
  dsimp only
  rw [if_pos hsent]

/-- Closed instance of `sentinel_skip` at the demo state whose cursor sits on
the sentinel slot. -/
theorem sentinel_skip_witness :
    downloadThreadStep demoConfig demoStateAtSentinel demoWorld
      = .next { demoStateAtSentinel with downloadIndex := demoStateAtSentinel.downloadIndex + 1 }
          demoWorld [] :=
  sentinel_skip demoConfig demoStateAtSentinel demoWorld rfl (by decide)
    (by intro pd hpd; injection hpd with h; subst h; decide) (by decide)

/-- Claim C5: an iteration that reaches a non-sentinel sample id resolves it to
its owning shard via `find_sample` and acquires that shard through the Shard
Cache's blocking acquisition — after the step the shard is locally present —
before the download cursor is advanced by the same iteration. -/
theorem shard_acquired_before_advance (cfg : Config) (s : PState) (w : World)
    (hstop : s.stopped = false) (htot : s.downloadIndex ≠ s.total)
    (hwin : ∀ pd, cfg.predownload = some pd →
      (s.downloadIndex : Int) - (s.yieldIndex : Int) < (pd : Int))
    (hsid : s.sampleIds.getD s.downloadIndex 0 ≠ -1) :
    ∃ w' evs,
      downloadThreadStep cfg s w
          = .next { s with downloadIndex := s.downloadIndex + 1 } w' evs ∧
      Event.ensureShard (cfg.findSample (s.sampleIds.getD s.downloadIndex 0)) true ∈ evs ∧
      cfg.findSample (s.sampleIds.getD s.downloadIndex 0) ∈ w'.shards := by
  have hshard : ∀ w0 shardId, shardId ∈ (ensureShardLocal w0 shardId).shards := by
    intro w0 shardId
    rw [ensureShardLocal]
    split
    · assumption
    · exact List.mem_cons_self _ _
  have hkeep : ∀ obj w0, (prefetchSideAsset cfg obj w0).1.shards = w0.shards := by
    intro obj w0
    rw [prefetchSideAsset]
    by_cases hg : (truthyStr cfg.extraLocal && truthyStr cfg.extraRemote) = true
    · rw [if_pos hg]
      dsimp only
      split
      · rfl
      · rfl
    · rw [if_neg hg]
  rw [downloadThreadStep_run cfg s w hstop htot hwin, downloadThreadBody]
  dsimp only
  rw [if_neg hsid]
  refine ⟨_, _, rfl, List.mem_cons_self _ _, ?_⟩
  rw [hkeep]
  exact hshard w _

/-- Closed instance of `shard_acquired_before_advance` at the demo state whose
cursor sits on a real sample id. -/
theorem shard_acquired_before_advance_witness :
    ∃ w' evs,
      downloadThreadStep demoConfig demoState demoWorld
          = .next { demoState with downloadIndex := demoState.downloadIndex + 1 } w' evs ∧
      Event.ensureShard
          (demoConfig.findSample (demoState.sampleIds.getD demoState.downloadIndex 0))
          true ∈ evs ∧
      demoConfig.findSample (demoState.sampleIds.getD demoState.downloadIndex 0)
        ∈ w'.shards :=
  shard_acquired_before_advance demoConfig demoState demoWorld rfl (by decide)
    (by intro pd hpd; injection hpd with h; subst h; decide) (by decide)

/-! ## Predownload window bound (claim C3) -/

/-- A scheduler iteration that continues never touches the yield cursor, and
advances the download cursor by one only when the window check observed
`download_index - yield_index < predownload`. -/
theorem step_next_cursors (cfg : Config) (pd : Nat)
    (hpd : cfg.predownload = some pd) {s : PState} {w : World} {s' : PState}
    {w' : World} {evs : List Event}
    (h : downloadThreadStep cfg s w = .next s' w' evs) :
    s'.yieldIndex = s.yieldIndex ∧
    (s'.downloadIndex = s.downloadIndex ∨
      (s'.downloadIndex = s.downloadIndex + 1 ∧
        (s.downloadIndex : Int) - (s.yieldIndex : Int) < (pd : Int))) := by
  rw [downloadThreadStep] at h
  by_cases hstop : s.stopped = true
  · rw [if_pos hstop] at h
    exact absurd h (by simp)
  · rw [if_neg hstop] at h
    by_cases htot : s.downloadIndex = s.total
    · rw [if_pos htot] at h
      exact absurd h (by simp)
    · rw [if_neg htot, hpd] at h
      simp only [] at h
      by_cases hfull : (pd : Int) ≤ (s.downloadIndex : Int) - (s.yieldIndex : Int)
      · rw [if_pos hfull] at h
        simp only [StepResult.next.injEq] at h
        rw [← h.1]
        exact ⟨rfl, Or.inl rfl⟩
      · rw [if_neg hfull, downloadThreadBody] at h
        dsimp only at h
        by_cases hsent : s.sampleIds.getD s.downloadIndex 0 = -1
        · rw [if_pos hsent] at h
          simp only [StepResult.next.injEq] at h
          rw [← h.1]
          exact ⟨rfl, Or.inr ⟨rfl, by omega⟩⟩
        · rw [if_neg hsent] at h
          simp only [StepResult.next.injEq] at h
          rw [← h.1]
          exact ⟨rfl, Or.inr ⟨rfl, by omega⟩⟩

/-- Claim C3: with a predownload window `w` configured, every scheduler
iteration preserves `download_index - yield_index ≤ w` — the loop sleeps
without advancing when it is already `w` or more ahead, and otherwise
increments the download cursor by one only after the check passed — so from
an initial state with `download_index = yield_index` the bound holds in every
state reachable under scheduler steps, consumer advances of the yield cursor,
and stop-flag writes. -/
theorem predownload_window_invariant (cfg : Config) (pd : Nat)
    (hpd : cfg.predownload = some pd) (s0 : PState) (w0 : World)
    (h0 : s0.downloadIndex = s0.yieldIndex)
    (s : PState) (w : World) (hr : Reachable cfg s0 w0 s w) :
    (s.downloadIndex : Int) - (s.yieldIndex : Int) ≤ (pd : Int) := by
  induction hr with
  | refl => omega
  | sched hprev hstep ih =>
    obtain ⟨hy, hcase⟩ := step_next_cursors cfg pd hpd hstep
    rcases hcase with h1 | ⟨h2, h3⟩ <;> omega
  | consume y hprev hy ih =>
    dsimp only
    omega
  | stop hprev ih =>
    exact ih

/-- Closed instance of `predownload_window_invariant` at the initial demo
state, reachable by reflexivity. -/
theorem predownload_window_invariant_witness :
    (demoState.downloadIndex : Int) - (demoState.yieldIndex : Int)
      ≤ ((1 : Nat) : Int) :=
  predownload_window_invariant demoConfig 1 rfl demoState demoWorld rfl
    demoState demoWorld Reachable.refl

/-! ## Side-asset idempotence (claim C9) and disabled side assets (claim C10) -/

/-- Claim C9: in the access-time path (`__getitem__`) and the prefetch-time
path (`_download_thread`), the side-asset download runs only when the derived
local path does not already exist; fetching the same sample's side asset twice
— by either path or a mix — performs at most one network transfer, and the
second access-time fetch is just the local read. -/
theorem side_asset_idempotent (cfg : Config) (idx : Int) (w : World) :
    (countDownloads (getitem cfg idx w).2.2
        + countDownloads (getitem cfg idx (getitem cfg idx w).2.1).2.2 ≤ 1) ∧
    (countDownloads (prefetchSideAsset cfg (cfg.baseSample idx) w).2
        + countDownloads
            (prefetchSideAsset cfg (cfg.baseSample idx)
              (prefetchSideAsset cfg (cfg.baseSample idx) w).1).2 ≤ 1) ∧
    (countDownloads (prefetchSideAsset cfg (cfg.baseSample idx) w).2
        + countDownloads
            (getitem cfg idx (prefetchSideAsset cfg (cfg.baseSample idx) w).1).2.2 ≤ 1) ∧
    (pathJoin (cfg.extraLocal.getD "") (cfg.baseSample idx).contentPath ∈ w.files →
      countDownloads (getitem cfg idx w).2.2 = 0 ∧
      countDownloads (prefetchSideAsset cfg (cfg.baseSample idx) w).2 = 0) ∧
    ((truthyStr cfg.extraLocal && truthyStr cfg.extraRemote) = true →
      (getitem cfg idx (getitem cfg idx w).2.1).2.2
        = [Event.readFile (pathJoin (cfg.extraLocal.getD "")
            (cfg.baseSample idx).contentPath)]) := by
  by_cases hg : (truthyStr cfg.extraLocal && truthyStr cfg.extraRemote) = true
  · by_cases hmem :
        pathJoin (cfg.extraLocal.getD "") (cfg.baseSample idx).contentPath ∈ w.files
    · simp [getitem, prefetchSideAsset, downloadTo, countDownloads, hg, hmem,
        List.countP_append, List.countP_cons]
    · simp [getitem, prefetchSideAsset, downloadTo, countDownloads, hg, hmem,
        List.countP_append, List.countP_cons, List.mem_cons]
  · simp [getitem, prefetchSideAsset, countDownloads, hg]

/-- Closed instance of `side_asset_idempotent`: with both roots set, the
second retrieval of sample 0's side asset is only the local read. -/
theorem side_asset_idempotent_witness :
    (getitem demoConfig 0 (getitem demoConfig 0 demoWorld).2.1).2.2
      = [Event.readFile (pathJoin (demoConfig.extraLocal.getD "")
          (demoConfig.baseSample 0).contentPath)] :=
  (side_asset_idempotent demoConfig 0 demoWorld).2.2.2.2 rfl

/-- Claim C10: when `extra_local` or `extra_remote` is unset (`None` or empty,
i.e. not truthy), `__getitem__` of the Outside variants returns exactly the
base retrieval's sample — no `content` field attached, no path derivation,
no existence check, no download — and the scheduler's side-asset block is a
no-op as well; side-asset handling disables silently instead of erroring. -/
theorem extras_unset_noop (cfg : Config) (idx : Int) (w : World) (obj : Sample)
    (h : (truthyStr cfg.extraLocal && truthyStr cfg.extraRemote) = false) :
    getitem cfg idx w = (cfg.baseSample idx, w, []) ∧
    prefetchSideAsset cfg obj w = (w, []) := by
  constructor
  · rw [getitem, if_neg (by simp [h])]
  · rw [prefetchSideAsset, if_neg (by simp [h])]

/-- Closed instance of `extras_unset_noop` on the configuration with the
side-asset local root unset. -/
theorem extras_unset_noop_witness :
    getitem demoConfigNoExtra 0 demoWorld
        = (demoConfigNoExtra.baseSample 0, demoWorld, []) ∧
    prefetchSideAsset demoConfigNoExtra (demoConfigNoExtra.baseSample 0) demoWorld
        = (demoWorld, []) :=
  extras_unset_noop demoConfigNoExtra 0 demoWorld
    (demoConfigNoExtra.baseSample 0) rfl

end Streaming
